import Mathlib

/-!
Shallow embedding of `preprocessing.py` (bipartite matrix-completion
preprocessing): rating-record lists, the flattened label grid, the
train/validation/test split routines, the training adjacency matrix,
feature row normalization, and the cache prologue, together with theorems
about the split invariants.

Numeric conventions: NumPy float arithmetic on partition sizes
(`int(np.ceil(n * 0.1))` and friends) is modelled in exact arithmetic as
natural-number ceiling division (`ceil_div`, certified against the `ℚ`
ceiling by `ceil_div_eq_ceil`); rating values are `ℚ`; label grids are
total functions from row-major flat indices to `ℤ`, with `-1` the neutral
sentinel; Python slice bounds (including negative bounds) are modelled by
`pySlice`.
-/

/-- A rating record `(u_node, v_node, rating)`: one observed edge. -/
abbrev Edge := ℕ × ℕ × ℚ

/-- User index of an edge. -/
def eU (e : Edge) : ℕ := e.1

/-- Item index of an edge. -/
def eV (e : Edge) : ℕ := e.2.1

/-- Rating value of an edge. -/
def eR (e : Edge) : ℚ := e.2.2

/-- The `(u, v)` pair of an edge, as in `pairs_nonzero`. -/
def pairOf (e : Edge) : ℕ × ℕ := (eU e, eV e)

/-- Row-major flat index `u * num_items + v` of an edge (`idx_nonzero`). -/
def flatIdx (num_items : ℕ) (e : Edge) : ℕ := eU e * num_items + eV e

/-- Row-major flat index of a bare `(u, v)` pair. -/
def flatPair (num_items : ℕ) (p : ℕ × ℕ) : ℕ := p.1 * num_items + p.2

/-- Insert a value into a sorted duplicate-free list, keeping it sorted
and duplicate-free. -/
def insertSortedUnique (x : ℚ) : List ℚ → List ℚ
  | [] => [x]
  | y :: ys =>
      if x < y then x :: y :: ys
      else if x = y then y :: ys
      else y :: insertSortedUnique x ys

/-- Model of `np.sort(np.unique(ratings))`: the sorted list of the distinct
rating values. -/
def sort_unique (ratings : List ℚ) : List ℚ := ratings.foldr insertSortedUnique []

/-- Model of `rating_dict`: the class index of a rating is its position in
the sorted list of distinct rating values. -/
def rating_dict (ratings : List ℚ) (r : ℚ) : ℕ := (sort_unique ratings).indexOf r

/-- Ceiling division `⌈a / b⌉` of natural numbers, used to model
`int(np.ceil(...))` of a nonnegative rational quantity in exact
arithmetic. -/
def ceil_div (a b : ℕ) : ℕ := (a + b - 1) / b

/-- Neutral sentinel written into unobserved label-grid cells. -/
def neutral_rating : ℤ := -1

/-- Model of the flattened label grid: `np.full((num_users, num_items), -1)`
followed by `labels[u_nodes, v_nodes] = [rating_dict[r] for r in ratings]`,
then `reshape([-1])`. Writes happen in edge order, so on duplicate cells the
last write wins, as in NumPy fancy assignment. -/
def write_labels (num_items : ℕ) (rdict : ℚ → ℕ) (edges : List Edge) : ℕ → ℤ :=
  edges.foldl
    (fun grid e => fun k => if k = flatIdx num_items e then (rdict (eR e) : ℤ) else grid k)
    (fun _ => neutral_rating)

/-- Model of `rating_mx_train = np.zeros(...)` followed by
`rating_mx_train[train_idx] = labels[train_idx] + 1`. -/
def build_adj (labels : ℕ → ℤ) (train_idx : List ℕ) : ℕ → ℚ :=
  train_idx.foldl
    (fun arr k => fun j => if j = k then ((labels k + 1 : ℤ) : ℚ) else arr j)
    (fun _ => 0)

/-- Normalize and clamp a Python slice bound for a sequence of length `n`:
a negative bound counts from the end, then the bound is clamped into
`[0, n]`. -/
def clampIdx (n : ℕ) (i : ℤ) : ℕ :=
  (max 0 (min (n : ℤ) (if i < 0 then i + n else i))).toNat

/-- Python slice `l[a:b]` with step 1, including negative-bound semantics. -/
def pySlice {α : Type*} (l : List α) (a b : ℤ) : List α :=
  (l.take (clampIdx l.length b)).drop (clampIdx l.length a)

/-- NumPy fancy indexing `arr[rand_idx]`: pick the elements at the given
positions. A permutation `rand_idx` of `range arr.length` (the result of
the seeded `np.random.shuffle`) rearranges the whole array. -/
def applyPerm {α : Type*} (rand_idx : List ℕ) (l : List α) : List α :=
  rand_idx.filterMap (fun i => l[i]?)

/-- Model of `normalize_features`: divide each row by its row sum; a zero
row sum is replaced by an infinite degree, so such a row maps to all zeros
instead of raising a division error. The source then checks
`feat_norm.nnz == 0` and prints a diagnostic, but its bare `exit`
statement is a no-op expression, so the matrix is returned unconditionally
either way. -/
def normalize_features (feat : List (List ℚ)) : List (List ℚ) :=
  feat.map (fun row =>
    let degree := row.sum
    if degree = 0 then row.map (fun _ => 0) else row.map (fun x => x / degree))

/-- Number of nonzero entries of a dense matrix (`.nnz`). -/
def nnz (m : List (List ℚ)) : ℕ :=
  (m.map (fun row => (row.filter (fun x => decide (x ≠ 0))).length)).sum

/-- Returned tuple of a split routine (the feature matrices pass through
unchanged and are omitted): flattened training adjacency, labels and
`(u, v)` pair lists per partition, and the sorted class values. The
source's separate `u_*_idx` / `v_*_idx` arrays are the transpose of the
pair lists. -/
structure SplitOut where
  rating_mx_train : ℕ → ℚ
  train_labels : List ℤ
  train_pairs_idx : List (ℕ × ℕ)
  val_labels : List ℤ
  val_pairs_idx : List (ℕ × ℕ)
  test_labels : List ℤ
  test_pairs_idx : List (ℕ × ℕ)
  class_values : List ℚ

/-- The `u_train_idx` array: first components of the train pair list. -/
def SplitOut.u_train_idx (o : SplitOut) : List ℕ := o.train_pairs_idx.map Prod.fst

/-- The `v_train_idx` array: second components of the train pair list. -/
def SplitOut.v_train_idx (o : SplitOut) : List ℕ := o.train_pairs_idx.map Prod.snd

/-- The `u_val_idx` array. -/
def SplitOut.u_val_idx (o : SplitOut) : List ℕ := o.val_pairs_idx.map Prod.fst

/-- The `v_val_idx` array. -/
def SplitOut.v_val_idx (o : SplitOut) : List ℕ := o.val_pairs_idx.map Prod.snd

/-- Model of `num_test = int(np.ceil(ratings.shape[0] * 0.1))`: in exact
arithmetic `⌈n / 10⌉`. -/
def split_num_test (n : ℕ) : ℕ := ceil_div n 10

/-- Model of the dataset-conditional `num_val` computation in
`create_trainvaltest_split`; both arms of the source conditional are the
same expression `int(np.ceil(n * 0.9 * 0.05))`, in exact arithmetic
`⌈9 * n / 200⌉`. -/
def num_val_branching (dataset : String) (n : ℕ) : ℕ :=
  if dataset = "ml_100k" then ceil_div (9 * n) 200
  else ceil_div (9 * n) 200

/-- The single formula the spec proposes for `num_val`, following the
spec's words `int(ceil(n * 0.9 * 0.05))`, for comparison with the
branching computation. -/
def num_val_single (n : ℕ) : ℕ := ceil_div (9 * n) 200

/-- Model of the split phase of `create_trainvaltest_split` (after the data
tuple has been obtained): build the label grid, carve train/validation/test
positionally with Python slice semantics (the upstream shuffle already
happened in `load_data`), optionally merge validation into train when
`testing`, and build the training adjacency matrix. The routine performs no
assertion checks. -/
def create_trainvaltest_split (dataset : String) (num_users num_items : ℕ)
    (edges : List Edge) (testing : Bool) : SplitOut :=
  let ratings := edges.map eR
  let rdict := rating_dict ratings
  let labels := write_labels num_items rdict edges
  let n := edges.length
  let num_test := split_num_test n
  let num_val := num_val_branching dataset n
  let num_train : ℤ := (n : ℤ) - num_val - num_test
  let pairs_nonzero := edges.map pairOf
  let idx_nonzero := edges.map (flatIdx num_items)
  let train_idx := pySlice idx_nonzero 0 num_train
  let val_idx := pySlice idx_nonzero num_train (num_train + num_val)
  let test_idx := pySlice idx_nonzero (num_train + num_val) n
  let train_pairs_idx := pySlice pairs_nonzero 0 num_train
  let val_pairs_idx := pySlice pairs_nonzero num_train (num_train + num_val)
  let test_pairs_idx := pySlice pairs_nonzero (num_train + num_val) n
  let train_labels := train_idx.map labels
  let val_labels := val_idx.map labels
  let test_labels := test_idx.map labels
  { rating_mx_train := build_adj labels (if testing then train_idx ++ val_idx else train_idx)
    train_labels := if testing then train_labels ++ val_labels else train_labels
    train_pairs_idx := if testing then train_pairs_idx ++ val_pairs_idx else train_pairs_idx
    val_labels := val_labels
    val_pairs_idx := val_pairs_idx
    test_labels := test_labels
    test_pairs_idx := test_pairs_idx
    class_values := sort_unique ratings }

/-- Model of `num_val = int(np.ceil(num_train * 0.2))` in the official,
Monti and books loaders: in exact arithmetic `⌈num_train / 5⌉`. -/
def official_num_val (num_train_file : ℕ) : ℕ := ceil_div num_train_file 5

/-- Model of the split phase of `load_official_trainvaltest_split`, whose
splitting core is shared line for line by `load_data_monti` and
`load_data_books`: concatenate the train-file rows followed by the
test-file rows, build the label grid, cross-check it against the
rating-to-class mapping (the `assert` loops, modelled by returning `none`
when a check fails), permute only the train-file subset (`rand_idx` models
the order produced by the seeded `np.random.shuffle`), carve
validation/train/test, and build the training adjacency matrix. -/
def load_official_trainvaltest_split (num_users num_items : ℕ)
    (data_array_train data_array_test : List Edge) (rand_idx : List ℕ)
    (testing : Bool) : Option SplitOut :=
  let data_array := data_array_train ++ data_array_test
  let ratings := data_array.map eR
  let rdict := rating_dict ratings
  let labels := write_labels num_items rdict data_array
  if ∀ e ∈ data_array, labels (flatIdx num_items e) = (rdict (eR e) : ℤ) then
    let num_test := data_array_test.length
    let num_val := official_num_val data_array_train.length
    let num_train := data_array_train.length - num_val
    let pairs_nonzero := data_array.map pairOf
    let idx_nonzero := data_array.map (flatIdx num_items)
    let idx_nonzero_train := applyPerm rand_idx (idx_nonzero.take (num_train + num_val))
    let idx_nonzero_test := idx_nonzero.drop (num_train + num_val)
    let pairs_nonzero_train := applyPerm rand_idx (pairs_nonzero.take (num_train + num_val))
    let pairs_nonzero_test := pairs_nonzero.drop (num_train + num_val)
    let idx_all := idx_nonzero_train ++ idx_nonzero_test
    let pairs_all := pairs_nonzero_train ++ pairs_nonzero_test
    let val_idx := idx_all.take num_val
    let train_idx := (idx_all.take (num_train + num_val)).drop num_val
    let test_idx := idx_all.drop (num_train + num_val)
    if test_idx.length = num_test then
      let val_pairs_idx := pairs_all.take num_val
      let train_pairs_idx := (pairs_all.take (num_train + num_val)).drop num_val
      let test_pairs_idx := pairs_all.drop (num_train + num_val)
      let train_labels := train_idx.map labels
      let val_labels := val_idx.map labels
      let test_labels := test_idx.map labels
      some
        { rating_mx_train := build_adj labels (if testing then train_idx ++ val_idx else train_idx)
          train_labels := if testing then train_labels ++ val_labels else train_labels
          train_pairs_idx := if testing then train_pairs_idx ++ val_pairs_idx else train_pairs_idx
          val_labels := val_labels
          val_pairs_idx := val_pairs_idx
          test_labels := test_labels
          test_pairs_idx := test_pairs_idx
          class_values := sort_unique ratings }
    else none
  else none

/-- Model of the data tuple loaded by `load_data` or read from the cache
(the feature matrices are omitted). -/
structure LoadedData where
  num_users : ℕ
  num_items : ℕ
  edges : List Edge

/-- Model of the cache-handling prologue of `create_trainvaltest_split`
(lines 128-144): either read the cached tuple (when `datasplit_from_file`
and the path is an existing file), or take the freshly loaded tuple and
dump it to `datasplit_path` before any split work. `isfile` models
`os.path.isfile` on actual paths; a `none` path is not an existing file,
and opening a `none` path for writing (`open(None, 'w')`) raises, modelled
as an error. The `Option String` in the result records the path written. -/
def cache_stage (datasplit_from_file : Bool) (isfile : String → Bool)
    (datasplit_path : Option String) (loaded cached : LoadedData) :
    Except String (LoadedData × Option String) :=
  if datasplit_from_file && (match datasplit_path with
      | some p => isfile p
      | none => false) then
    Except.ok (cached, none)
  else
    match datasplit_path with
    | none => Except.error "TypeError: open expected a file path, got None"
    | some p => Except.ok (loaded, some p)

/-- Full model of `create_trainvaltest_split` including the cache prologue:
a cache-stage failure propagates and no split result is produced. -/
def create_trainvaltest_full (dataset : String) (datasplit_from_file : Bool)
    (isfile : String → Bool) (datasplit_path : Option String)
    (loaded cached : LoadedData) (testing : Bool) :
    Except String (Option String × SplitOut) :=
  match cache_stage datasplit_from_file isfile datasplit_path loaded cached with
  | Except.error e => Except.error e
  | Except.ok (d, written) =>
      Except.ok (written, create_trainvaltest_split dataset d.num_users d.num_items d.edges testing)

/-- The `num_train` quantity of `create_trainvaltest_split`:
`ratings.shape[0] - num_val - num_test` as a Python (signed) integer. -/
def create_num_train (dataset : String) (n : ℕ) : ℤ :=
  (n : ℤ) - num_val_branching dataset n - split_num_test n

/-- The label grid built by the official/Monti/books loaders over the
concatenated train-file and test-file rows. -/
def official_labels (ni : ℕ) (tr te : List Edge) : ℕ → ℤ :=
  write_labels ni (rating_dict ((tr ++ te).map eR)) (tr ++ te)

/-- The shuffled train-file flat indices of the official loader. -/
def official_shuffled_idx (ni : ℕ) (tr : List Edge) (p : List ℕ) : List ℕ :=
  applyPerm p (tr.map (flatIdx ni))

/-- The shuffled train-file `(u, v)` pairs of the official loader. -/
def official_shuffled_pairs (tr : List Edge) (p : List ℕ) : List (ℕ × ℕ) :=
  applyPerm p (tr.map pairOf)

/-- The partition invariant claimed for a split result: over the full list
`F` of observed flat indices, the three returned partitions' flat-index
lists sum to `F.length` in size, exhaust `F`, contain each observed flat
index exactly once, and are pairwise disjoint. -/
def partitionClaim (ni : ℕ) (F : List ℕ) (o : SplitOut) : Prop :=
  (o.train_pairs_idx.map (flatPair ni)).length + (o.val_pairs_idx.map (flatPair ni)).length
      + (o.test_pairs_idx.map (flatPair ni)).length = F.length ∧
  (∀ k, k ∈ F ↔ k ∈ o.train_pairs_idx.map (flatPair ni) ∨
      k ∈ o.val_pairs_idx.map (flatPair ni) ∨ k ∈ o.test_pairs_idx.map (flatPair ni)) ∧
  (∀ k ∈ F, (o.train_pairs_idx.map (flatPair ni) ++ (o.val_pairs_idx.map (flatPair ni)
      ++ o.test_pairs_idx.map (flatPair ni))).count k = 1) ∧
  (o.train_pairs_idx.map (flatPair ni)).Disjoint (o.val_pairs_idx.map (flatPair ni)) ∧
  (o.train_pairs_idx.map (flatPair ni)).Disjoint (o.test_pairs_idx.map (flatPair ni)) ∧
  (o.val_pairs_idx.map (flatPair ni)).Disjoint (o.test_pairs_idx.map (flatPair ni))

section Infrastructure

variable {α β : Type*}

/-- The integer ceiling division `ceil_div` agrees with the rational
ceiling, certifying the exact-arithmetic reading of `int(np.ceil(...))`. -/
theorem ceil_div_eq_ceil (a b : ℕ) (hb : 0 < b) : ceil_div a b = ⌈(a : ℚ) / b⌉₊ := by
  have hbq : (0 : ℚ) < b := by exact_mod_cast hb
  rcases Nat.eq_zero_or_pos a with ha | ha
  · subst ha
    have h0 : ceil_div 0 b = 0 := Nat.div_eq_of_lt (by omega)
    rw [h0]
    simp
  · have hmod : (a + b - 1) % b < b := Nat.mod_lt _ hb
    have hdm : b * ((a + b - 1) / b) + (a + b - 1) % b = a + b - 1 := Nat.div_add_mod _ _
    have hcd : ceil_div a b = (a + b - 1) / b := rfl
    set q := (a + b - 1) / b with hq
    set r := (a + b - 1) % b with hr
    have hq1 : q ≠ 0 := by
      intro h
      rw [h, Nat.mul_zero] at hdm
      omega
    rw [hcd, eq_comm, Nat.ceil_eq_iff hq1]
    constructor
    · rw [lt_div_iff₀ hbq]
      have hnat : (q - 1) * b < a := by
        rw [Nat.sub_mul, one_mul, Nat.mul_comm q b]
        omega
      exact_mod_cast hnat
    · rw [div_le_iff₀ hbq]
      have hnat : a ≤ q * b := by
        rw [Nat.mul_comm q b]
        omega
      exact_mod_cast hnat

theorem clampIdx_zero (n : ℕ) : clampIdx n 0 = 0 := by
  unfold clampIdx
  rw [if_neg (by omega)]
  omega

theorem clampIdx_len (n : ℕ) : clampIdx n (n : ℤ) = n := by
  unfold clampIdx
  rw [if_neg (by omega)]
  omega

theorem clampIdx_of_nonneg (n : ℕ) (i : ℤ) (h : 0 ≤ i) : clampIdx n i = min n i.toNat := by
  unfold clampIdx
  rw [if_neg (by omega)]
  omega

/-- Gluing a three-way take/drop decomposition back together. -/
theorem take_drop_partition (l : List α) (a b : ℕ) (h : a ≤ b) :
    l.take a ++ (((l.take b).drop a) ++ l.drop b) = l := by
  have h1 : (l.take b).take a = l.take a := by
    rw [List.take_take, min_eq_left h]
  calc l.take a ++ (((l.take b).drop a) ++ l.drop b)
      = ((l.take b).take a ++ (l.take b).drop a) ++ l.drop b := by
        rw [h1, List.append_assoc]
    _ = l.take b ++ l.drop b := by rw [List.take_append_drop]
    _ = l := List.take_append_drop b l

/-- The three Python slices `l[0:a]`, `l[a:b]`, `l[b:]` concatenate back to
`l` whenever the clamped bounds are ordered. -/
theorem pySlice_glue (l : List α) (a b : ℤ)
    (h : clampIdx l.length a ≤ clampIdx l.length b) :
    pySlice l 0 a ++ (pySlice l a b ++ pySlice l b (l.length : ℤ)) = l := by
  unfold pySlice
  rw [clampIdx_zero, clampIdx_len, List.drop_zero, List.take_length]
  exact take_drop_partition l _ _ h

/-- A slice with in-range nonnegative bounds is a take of a drop. -/
theorem pySlice_of_nonneg (l : List α) (a b : ℤ) (ka kb : ℕ)
    (hka : (ka : ℤ) = a) (hkb : (kb : ℤ) = b) (hkan : ka ≤ l.length) (hkbn : kb ≤ l.length) :
    pySlice l a b = (l.take kb).drop ka := by
  unfold pySlice
  have h1 : clampIdx l.length a = ka := by
    rw [← hka, clampIdx_of_nonneg _ _ (by omega)]
    omega
  have h2 : clampIdx l.length b = kb := by
    rw [← hkb, clampIdx_of_nonneg _ _ (by omega)]
    omega
  rw [h1, h2]

/-- Members of a slice are members of the sliced list. -/
theorem mem_of_mem_pySlice {l : List α} {a b : ℤ} {x : α} (h : x ∈ pySlice l a b) :
    x ∈ l := by
  unfold pySlice at h
  exact List.mem_of_mem_take (List.mem_of_mem_drop h)

/-- Slicing commutes with mapping. -/
theorem pySlice_map (f : α → β) (l : List α) (a b : ℤ) :
    pySlice (l.map f) a b = (pySlice l a b).map f := by
  unfold pySlice
  rw [List.length_map, List.map_drop, List.map_take]

/-- Peeling the last write off the label grid. -/
theorem write_labels_append (ni : ℕ) (rdict : ℚ → ℕ) (es : List Edge) (e : Edge) :
    write_labels ni rdict (es ++ [e]) =
      fun k => if k = flatIdx ni e then (rdict (eR e) : ℤ) else write_labels ni rdict es k := by
  unfold write_labels
  rw [List.foldl_append]
  rfl

/-- Pointwise form of `write_labels_append`. -/
theorem write_labels_append_apply (ni : ℕ) (rdict : ℚ → ℕ) (es : List Edge) (e : Edge)
    (k : ℕ) :
    write_labels ni rdict (es ++ [e]) k =
      if k = flatIdx ni e then (rdict (eR e) : ℤ) else write_labels ni rdict es k := by
  rw [write_labels_append]

/-- Cells never written hold the neutral sentinel. -/
theorem write_labels_not_mem (ni : ℕ) (rdict : ℚ → ℕ) (es : List Edge) (k : ℕ)
    (h : k ∉ es.map (flatIdx ni)) : write_labels ni rdict es k = neutral_rating := by
  induction es using List.reverseRecOn with
  | nil => rfl
  | append_singleton es e ih =>
      rw [write_labels_append_apply]
      simp only [List.map_append, List.map_cons, List.map_nil, List.mem_append,
        List.mem_singleton, not_or] at h
      rw [if_neg (by simpa using h.2)]
      exact ih h.1

/-- A written cell holds the class of one of the edges mapping to it. -/
theorem write_labels_mem (ni : ℕ) (rdict : ℚ → ℕ) (es : List Edge) (k : ℕ)
    (h : k ∈ es.map (flatIdx ni)) :
    ∃ e ∈ es, flatIdx ni e = k ∧ write_labels ni rdict es k = (rdict (eR e) : ℤ) := by
  induction es using List.reverseRecOn with
  | nil => simp at h
  | append_singleton es e ih =>
      by_cases hk : k = flatIdx ni e
      · exact ⟨e, by simp, hk.symm, by rw [write_labels_append_apply, if_pos hk]⟩
      · simp only [List.map_append, List.map_cons, List.map_nil, List.mem_append,
          List.mem_singleton] at h
        have h' : k ∈ es.map (flatIdx ni) := by
          rcases h with h | h
          · exact h
          · exact absurd h.symm (fun he => hk he.symm)
        obtain ⟨e', he', hf, heq⟩ := ih h'
        exact ⟨e', by simp [he'], hf,
          by rw [write_labels_append_apply, if_neg hk]; exact heq⟩

/-- A written cell holds a nonnegative value. -/
theorem write_labels_nonneg (ni : ℕ) (rdict : ℚ → ℕ) (es : List Edge) (k : ℕ)
    (h : k ∈ es.map (flatIdx ni)) : 0 ≤ write_labels ni rdict es k := by
  obtain ⟨e, _, _, heq⟩ := write_labels_mem ni rdict es k h
  rw [heq]
  exact Int.natCast_nonneg _

/-- With duplicate-free flat indices, each edge's cell holds exactly its
own class index. -/
theorem write_labels_nodup (ni : ℕ) (rdict : ℚ → ℕ) (es : List Edge)
    (hnd : (es.map (flatIdx ni)).Nodup) (e : Edge) (he : e ∈ es) :
    write_labels ni rdict es (flatIdx ni e) = (rdict (eR e) : ℤ) := by
  induction es using List.reverseRecOn with
  | nil => simp at he
  | append_singleton es a ih =>
      rw [List.map_append] at hnd
      rw [List.nodup_append] at hnd
      obtain ⟨hnd1, _, hdisj⟩ := hnd
      rcases List.mem_append.mp he with he' | he'
      · have hne : flatIdx ni e ≠ flatIdx ni a := by
          intro hcontra
          exact hdisj (List.mem_map_of_mem _ he') (by simp [hcontra])
        rw [write_labels_append_apply, if_neg hne]
        exact ih hnd1 he'
      · have : e = a := by simpa using he'
        subst this
        rw [write_labels_append_apply, if_pos rfl]

/-- Peeling the last write off the adjacency array. -/
theorem build_adj_append (labels : ℕ → ℤ) (idxs : List ℕ) (k0 : ℕ) :
    build_adj labels (idxs ++ [k0]) =
      fun j => if j = k0 then ((labels k0 + 1 : ℤ) : ℚ) else build_adj labels idxs j := by
  unfold build_adj
  rw [List.foldl_append]
  rfl

/-- Pointwise form of `build_adj_append`. -/
theorem build_adj_append_apply (labels : ℕ → ℤ) (idxs : List ℕ) (k0 j : ℕ) :
    build_adj labels (idxs ++ [k0]) j =
      if j = k0 then ((labels k0 + 1 : ℤ) : ℚ) else build_adj labels idxs j := by
  rw [build_adj_append]

/-- Cells outside the written index list stay zero. -/
theorem build_adj_not_mem (labels : ℕ → ℤ) (idxs : List ℕ) (k : ℕ) (h : k ∉ idxs) :
    build_adj labels idxs k = 0 := by
  induction idxs using List.reverseRecOn with
  | nil => rfl
  | append_singleton idxs k0 ih =>
      rw [build_adj_append_apply]
      simp only [List.mem_append, List.mem_singleton, not_or] at h
      rw [if_neg h.2]
      exact ih h.1

/-- Every written cell holds its own label plus one. -/
theorem build_adj_mem (labels : ℕ → ℤ) (idxs : List ℕ) (k : ℕ) (h : k ∈ idxs) :
    build_adj labels idxs k = ((labels k + 1 : ℤ) : ℚ) := by
  induction idxs using List.reverseRecOn with
  | nil => simp at h
  | append_singleton idxs k0 ih =>
      rw [build_adj_append_apply]
      by_cases hk : k = k0
      · rw [if_pos hk, hk]
      · rw [if_neg hk]
        exact ih (by simpa [hk] using List.mem_append.mp h)

/-- Fancy indexing over `range n` returns the first `n` elements. -/
theorem filterMap_getElem_range (l : List α) (n : ℕ) (h : n ≤ l.length) :
    (List.range n).filterMap (fun i => l[i]?) = l.take n := by
  induction n with
  | zero => simp
  | succ m ih =>
      have hm : m < l.length := by omega
      rw [List.range_succ, List.filterMap_append, ih (by omega), List.take_succ]
      simp [List.filterMap, List.getElem?_eq_getElem hm]

/-- Fancy indexing by a permutation of all positions permutes the list. -/
theorem applyPerm_perm (p : List ℕ) (l : List α) (hp : p.Perm (List.range l.length)) :
    (applyPerm p l).Perm l := by
  have h1 := hp.filterMap (fun i => l[i]?)
  rw [filterMap_getElem_range l l.length (le_refl _), List.take_length] at h1
  exact h1

theorem applyPerm_length (p : List ℕ) (l : List α) (hp : p.Perm (List.range l.length)) :
    (applyPerm p l).length = l.length :=
  (applyPerm_perm p l hp).length_eq

/-- Fancy indexing commutes with mapping. -/
theorem applyPerm_map (f : α → β) (p : List ℕ) (l : List α) :
    applyPerm p (l.map f) = (applyPerm p l).map f := by
  unfold applyPerm
  rw [List.map_filterMap]
  simp [List.getElem?_map]

/-- With in-range item indices, distinct `(u, v)` pairs give distinct
row-major flat indices. -/
theorem flat_nodup (ni : ℕ) (edges : List Edge) (hb : ∀ e ∈ edges, eV e < ni)
    (hnd : (edges.map pairOf).Nodup) : (edges.map (flatIdx ni)).Nodup := by
  have hmap : edges.map (flatIdx ni) = (edges.map pairOf).map (flatPair ni) := by
    rw [List.map_map]
    rfl
  rw [hmap]
  apply List.Nodup.map_on ?_ hnd
  intro x hx y hy hxy
  obtain ⟨ex, hex, hx'⟩ := List.mem_map.mp hx
  obtain ⟨ey, hey, hy'⟩ := List.mem_map.mp hy
  have hx2 : x.2 < ni := by rw [← hx']; exact hb ex hex
  have hy2 : y.2 < ni := by rw [← hy']; exact hb ey hey
  have hni : 0 < ni := by omega
  unfold flatPair at hxy
  have e1 : x.1 = y.1 := by
    have d1 : (x.1 * ni + x.2) / ni = x.1 := by
      rw [Nat.mul_comm x.1 ni, Nat.mul_add_div hni, Nat.div_eq_of_lt hx2]
      omega
    have d2 : (y.1 * ni + y.2) / ni = y.1 := by
      rw [Nat.mul_comm y.1 ni, Nat.mul_add_div hni, Nat.div_eq_of_lt hy2]
      omega
    rw [← d1, ← d2, hxy]
  have e2 : x.2 = y.2 := by
    have m1 : (x.1 * ni + x.2) % ni = x.2 := by
      rw [Nat.mul_comm x.1 ni, Nat.mul_add_mod, Nat.mod_eq_of_lt hx2]
    have m2 : (y.1 * ni + y.2) % ni = y.2 := by
      rw [Nat.mul_comm y.1 ni, Nat.mul_add_mod, Nat.mod_eq_of_lt hy2]
    rw [← m1, ← m2, hxy]
  exact Prod.ext e1 e2

/-- From a permutation onto duplicate-free flat indices, derive all the
partition properties: lengths sum, exhaustive union, exactly-one
membership, and pairwise disjointness. -/
theorem partition_props {T V S F : List ℕ} (hperm : (T ++ (V ++ S)).Perm F)
    (hnd : F.Nodup) :
    T.length + V.length + S.length = F.length ∧
    (∀ k, k ∈ F ↔ k ∈ T ∨ k ∈ V ∨ k ∈ S) ∧
    (∀ k ∈ F, (T ++ (V ++ S)).count k = 1) ∧
    T.Disjoint V ∧ T.Disjoint S ∧ V.Disjoint S := by
  have hlen := hperm.length_eq
  simp only [List.length_append] at hlen
  have hndall : (T ++ (V ++ S)).Nodup := hperm.nodup_iff.mpr hnd
  rw [List.nodup_append] at hndall
  obtain ⟨hT, hVS, hdisjT⟩ := hndall
  rw [List.nodup_append] at hVS
  obtain ⟨hV, hS, hdisjVS⟩ := hVS
  rw [List.disjoint_append_right] at hdisjT
  refine ⟨by omega, ?_, ?_, hdisjT.1, hdisjT.2, hdisjVS⟩
  · intro k
    rw [← hperm.mem_iff]
    simp [List.mem_append]
  · intro k hk
    rw [hperm.count_eq k]
    exact List.count_eq_one_of_mem hnd hk

/-- Mapping a function that fixes every member is the identity. -/
theorem map_eq_self_of {l : List α} {f : α → α} (h : ∀ x ∈ l, f x = x) :
    l.map f = l := by
  induction l with
  | nil => rfl
  | cons a l ih =>
      rw [List.map_cons, h a (by simp), ih (fun x hx => h x (by simp [hx]))]

end Infrastructure

section SplitLemmas

/-- The official-style validation count never exceeds the train-file size. -/
theorem official_num_val_le (n : ℕ) : official_num_val n ≤ n := by
  unfold official_num_val ceil_div
  omega

/-- Both arms of the dataset conditional compute the same value. -/
theorem num_val_branching_eq (ds : String) (n : ℕ) :
    num_val_branching ds n = num_val_single n := by
  unfold num_val_branching num_val_single
  split <;> rfl

/-- Except at `n = 1`, validation plus test edges never exceed the total. -/
theorem create_sizes_le (ds : String) (n : ℕ) (hn : n ≠ 1) :
    num_val_branching ds n + split_num_test n ≤ n := by
  rw [num_val_branching_eq]
  unfold num_val_single split_num_test ceil_div
  omega

/-- At `n = 1`, `num_train` is the negative Python integer `-1`. -/
theorem create_num_train_neg_iff (ds : String) (n : ℕ) :
    create_num_train ds n < 0 ↔ n = 1 := by
  unfold create_num_train
  rw [num_val_branching_eq]
  unfold num_val_single split_num_test ceil_div
  omega

/-- The lower clamped bound never exceeds the upper one, for the actual
size formulas of `create_trainvaltest_split` (covering the negative
`num_train` case `n = 1`). -/
theorem create_clamp_mono (ds : String) (n : ℕ) :
    clampIdx n (create_num_train ds n)
      ≤ clampIdx n (create_num_train ds n + num_val_branching ds n) := by
  unfold create_num_train
  rw [num_val_branching_eq]
  unfold num_val_single split_num_test ceil_div clampIdx
  split <;> split <;> omega

theorem create_val_pairs_eq (ds : String) (nu ni : ℕ) (es : List Edge) (t : Bool) :
    (create_trainvaltest_split ds nu ni es t).val_pairs_idx
      = pySlice (es.map pairOf) (create_num_train ds es.length)
          (create_num_train ds es.length + num_val_branching ds es.length) := rfl

theorem create_test_pairs_eq (ds : String) (nu ni : ℕ) (es : List Edge) (t : Bool) :
    (create_trainvaltest_split ds nu ni es t).test_pairs_idx
      = pySlice (es.map pairOf) (create_num_train ds es.length + num_val_branching ds es.length)
          (es.length : ℤ) := rfl

theorem create_train_pairs_eq (ds : String) (nu ni : ℕ) (es : List Edge) (t : Bool) :
    (create_trainvaltest_split ds nu ni es t).train_pairs_idx
      = (if t then pySlice (es.map pairOf) 0 (create_num_train ds es.length)
            ++ pySlice (es.map pairOf) (create_num_train ds es.length)
                (create_num_train ds es.length + num_val_branching ds es.length)
          else pySlice (es.map pairOf) 0 (create_num_train ds es.length)) := rfl

theorem create_val_labels_eq (ds : String) (nu ni : ℕ) (es : List Edge) (t : Bool) :
    (create_trainvaltest_split ds nu ni es t).val_labels
      = (pySlice (es.map (flatIdx ni)) (create_num_train ds es.length)
          (create_num_train ds es.length + num_val_branching ds es.length)).map
            (write_labels ni (rating_dict (es.map eR)) es) := rfl

theorem create_test_labels_eq (ds : String) (nu ni : ℕ) (es : List Edge) (t : Bool) :
    (create_trainvaltest_split ds nu ni es t).test_labels
      = (pySlice (es.map (flatIdx ni)) (create_num_train ds es.length + num_val_branching ds es.length)
          (es.length : ℤ)).map (write_labels ni (rating_dict (es.map eR)) es) := rfl

theorem create_train_labels_eq (ds : String) (nu ni : ℕ) (es : List Edge) (t : Bool) :
    (create_trainvaltest_split ds nu ni es t).train_labels
      = (if t then (pySlice (es.map (flatIdx ni)) 0 (create_num_train ds es.length)).map
              (write_labels ni (rating_dict (es.map eR)) es)
            ++ (pySlice (es.map (flatIdx ni)) (create_num_train ds es.length)
                (create_num_train ds es.length + num_val_branching ds es.length)).map
              (write_labels ni (rating_dict (es.map eR)) es)
          else (pySlice (es.map (flatIdx ni)) 0 (create_num_train ds es.length)).map
              (write_labels ni (rating_dict (es.map eR)) es)) := rfl

theorem create_adj_eq (ds : String) (nu ni : ℕ) (es : List Edge) (t : Bool) :
    (create_trainvaltest_split ds nu ni es t).rating_mx_train
      = build_adj (write_labels ni (rating_dict (es.map eR)) es)
          (if t then pySlice (es.map (flatIdx ni)) 0 (create_num_train ds es.length)
              ++ pySlice (es.map (flatIdx ni)) (create_num_train ds es.length)
                  (create_num_train ds es.length + num_val_branching ds es.length)
            else pySlice (es.map (flatIdx ni)) 0 (create_num_train ds es.length)) := rfl

theorem create_class_values_eq (ds : String) (nu ni : ℕ) (es : List Edge) (t : Bool) :
    (create_trainvaltest_split ds nu ni es t).class_values = sort_unique (es.map eR) := rfl

/-- Closed form of the official/Monti/books split when the label
cross-checks pass and `rand_idx` is a permutation of the train-file
positions: validation is the first `num_val` shuffled train-file edges,
train the rest of them, and test exactly the test-file rows in order. -/
theorem official_split_eq (nu ni : ℕ) (tr te : List Edge) (p : List ℕ) (t : Bool)
    (hp : p.Perm (List.range tr.length))
    (hchk : ∀ e ∈ tr ++ te,
      official_labels ni tr te (flatIdx ni e) = (rating_dict ((tr ++ te).map eR) (eR e) : ℤ)) :
    load_official_trainvaltest_split nu ni tr te p t = some
      { rating_mx_train := build_adj (official_labels ni tr te)
          (if t then (official_shuffled_idx ni tr p).drop (official_num_val tr.length)
              ++ (official_shuffled_idx ni tr p).take (official_num_val tr.length)
            else (official_shuffled_idx ni tr p).drop (official_num_val tr.length))
        train_labels := if t then
            ((official_shuffled_idx ni tr p).drop (official_num_val tr.length)).map
              (official_labels ni tr te)
            ++ ((official_shuffled_idx ni tr p).take (official_num_val tr.length)).map
              (official_labels ni tr te)
          else ((official_shuffled_idx ni tr p).drop (official_num_val tr.length)).map
              (official_labels ni tr te)
        train_pairs_idx := if t then
            (official_shuffled_pairs tr p).drop (official_num_val tr.length)
            ++ (official_shuffled_pairs tr p).take (official_num_val tr.length)
          else (official_shuffled_pairs tr p).drop (official_num_val tr.length)
        val_labels := ((official_shuffled_idx ni tr p).take (official_num_val tr.length)).map
          (official_labels ni tr te)
        val_pairs_idx := (official_shuffled_pairs tr p).take (official_num_val tr.length)
        test_labels := (te.map (flatIdx ni)).map (official_labels ni tr te)
        test_pairs_idx := te.map pairOf
        class_values := sort_unique ((tr ++ te).map eR) } := by
  unfold official_labels at hchk
  have hlp : (tr.map pairOf).length = tr.length := List.length_map _ _
  have hli : (tr.map (flatIdx ni)).length = tr.length := List.length_map _ _
  have hpl : p.Perm (List.range (tr.map (flatIdx ni)).length) := by rw [hli]; exact hp
  have hplp : p.Perm (List.range (tr.map pairOf).length) := by rw [hlp]; exact hp
  have hSPl : (applyPerm p (tr.map (flatIdx ni))).length = tr.length := by
    rw [applyPerm_length _ _ hpl, hli]
  have hSPlp : (applyPerm p (tr.map pairOf)).length = tr.length := by
    rw [applyPerm_length _ _ hplp, hlp]
  have hsum : tr.length - official_num_val tr.length + official_num_val tr.length
      = tr.length := Nat.sub_add_cancel (official_num_val_le _)
  have hnvSP : official_num_val tr.length ≤ (applyPerm p (tr.map (flatIdx ni))).length := by
    rw [hSPl]; exact official_num_val_le _
  have hnvSPp : official_num_val tr.length ≤ (applyPerm p (tr.map pairOf)).length := by
    rw [hSPlp]; exact official_num_val_le _
  simp only [load_official_trainvaltest_split]
  rw [if_pos hchk]
  simp only [List.map_append]
  rw [hsum]
  rw [List.take_left' hlp, List.drop_left' hlp, List.take_left' hli, List.drop_left' hli]
  rw [List.take_left' hSPl, List.drop_left' hSPl, List.take_left' hSPlp, List.drop_left' hSPlp]
  rw [List.take_append_of_le_length hnvSP, List.take_append_of_le_length hnvSPp]
  rw [if_pos (List.length_map _ _)]
  unfold official_shuffled_idx official_shuffled_pairs official_labels
  simp only [List.map_append]

end SplitLemmas

section ClaimsEasy

/-- C8: the two dataset-conditional arms of the `num_val` computation in
`create_trainvaltest_split` are the same formula `int(ceil(n * 0.9 * 0.05))`
for every dataset name and observed-edge count, so replacing the
conditional by the single formula yields an identical function. -/
theorem c8_num_val_arms_equivalent :
    ∀ (ds : String) (n : ℕ), num_val_branching ds n = num_val_single n := by
  intro ds n
  unfold num_val_branching num_val_single
  split <;> rfl

/-- C9: `normalize_features` is a fixed point on row-stochastic input:
when every row already sums to 1, the output equals the input matrix. -/
theorem c9_normalize_fixed_point (feat : List (List ℚ))
    (h : ∀ row ∈ feat, row.sum = 1) : normalize_features feat = feat := by
  unfold normalize_features
  apply map_eq_self_of
  intro row hrow
  simp [h row hrow]

/-- C9 witness: a concrete row-stochastic matrix is returned unchanged. -/
theorem c9_normalize_fixed_point_witness :
    (∀ row ∈ [[(1 : ℚ)], [(0 : ℚ), 1]], row.sum = 1) ∧
    normalize_features [[(1 : ℚ)], [(0 : ℚ), 1]] = [[(1 : ℚ)], [(0 : ℚ), 1]] :=
  ⟨by simp, c9_normalize_fixed_point [[(1 : ℚ)], [(0 : ℚ), 1]] (by simp)⟩

/-- C6: in the degenerate case where the normalized result is the all-zero
matrix, the bare `exit` statement in the source does not terminate the run:
the function surfaces the printed diagnostic but still returns the all-zero
matrix as a normal result, evaluated here at the 1-by-1 zero matrix. -/
theorem c6_zero_matrix_returned :
    normalize_features [[(0 : ℚ)]] = [[(0 : ℚ)]] ∧
    nnz (normalize_features [[(0 : ℚ)]]) = 0 := by
  constructor
  · simp [normalize_features]
  · simp [normalize_features, nnz, List.filter]

/-- C10: whenever the cache is not read (`datasplit_from_file` false, or
the path not an existing file), `create_trainvaltest_split` takes the
write path: with a `some` path it dumps the loaded tuple there and then
splits the loaded data; with the default `None` path the write fails when
opening the cache file and no split result is returned. -/
theorem c10_cache_write_path (ds : String) (ff : Bool) (isfile : String → Bool)
    (path : Option String) (loaded cached : LoadedData) (t : Bool)
    (h : ff = false ∨ ∃ q, path = some q ∧ isfile q = false) :
    (path = none → create_trainvaltest_full ds ff isfile path loaded cached t
        = Except.error "TypeError: open expected a file path, got None") ∧
    (∀ q, path = some q → create_trainvaltest_full ds ff isfile path loaded cached t
        = Except.ok (some q,
            create_trainvaltest_split ds loaded.num_users loaded.num_items loaded.edges t)) := by
  constructor
  · intro hnone
    subst hnone
    have hguard : (ff && (match (none : Option String) with
        | some p => isfile p
        | none => false)) = false := by
      cases ff <;> rfl
    unfold create_trainvaltest_full cache_stage
    rw [hguard]
    rfl
  · intro q hq
    subst hq
    have hguard : (ff && (match (some q : Option String) with
        | some p => isfile p
        | none => false)) = false := by
      rcases h with h | ⟨q2, hq2, hf⟩
      · rw [h]; rfl
      · have : q2 = q := by injection hq2.symm
        subst this
        simp [hf]
    unfold create_trainvaltest_full cache_stage
    rw [hguard]
    rfl

/-- C10 witness: with the default arguments (`datasplit_from_file = False`,
`datasplit_path = None`) the call fails at the cache write. -/
theorem c10_cache_write_path_witness :
    create_trainvaltest_full "ml_100k" false (fun _ => false) none
        ⟨1, 1, []⟩ ⟨1, 1, []⟩ false
      = Except.error "TypeError: open expected a file path, got None" :=
  (c10_cache_write_path "ml_100k" false (fun _ => false) none
    ⟨1, 1, []⟩ ⟨1, 1, []⟩ false (Or.inl rfl)).1 rfl

end ClaimsEasy

section ClaimsSplit

/-- Pair slices and flat-index slices are co-indexed: mapping the flat
index over a pair slice gives the corresponding flat-index slice. -/
theorem pySlice_pairs_to_flat (ni : ℕ) (es : List Edge) (a b : ℤ) :
    (pySlice (es.map pairOf) a b).map (flatPair ni) = pySlice (es.map (flatIdx ni)) a b := by
  rw [← pySlice_map, List.map_map]
  rfl

/-- The shuffled pair list and shuffled flat-index list are co-indexed. -/
theorem official_pairs_to_flat (ni : ℕ) (tr : List Edge) (p : List ℕ) :
    (official_shuffled_pairs tr p).map (flatPair ni) = official_shuffled_idx ni tr p := by
  unfold official_shuffled_pairs official_shuffled_idx
  rw [← applyPerm_map, List.map_map]
  rfl

/-- Swapping the first two blocks of a three-block concatenation is a
permutation. -/
theorem perm_swap_first_two {α : Type*} {T V S : List α} :
    (T ++ (V ++ S)).Perm (V ++ (T ++ S)) := by
  have h1 : T ++ (V ++ S) = (T ++ V) ++ S := (List.append_assoc _ _ _).symm
  have h2 : ((T ++ V) ++ S).Perm ((V ++ T) ++ S) := List.perm_append_comm.append_right S
  have h3 : (V ++ T) ++ S = V ++ (T ++ S) := List.append_assoc _ _ _
  rw [h1, ← h3]
  exact h2

/-- Elements produced by fancy indexing come from the indexed list. -/
theorem mem_of_mem_applyPerm {α : Type*} {p : List ℕ} {l : List α} {x : α}
    (h : x ∈ applyPerm p l) : x ∈ l := by
  unfold applyPerm at h
  obtain ⟨i, _, hx⟩ := List.mem_filterMap.mp h
  exact List.getElem?_mem hx

/-- C2 (amended: except at `n = 1`): in `create_trainvaltest_split` the
test partition is the last `ceil(n * 0.1)` edges in upstream-shuffled
order, the validation partition is the `ceil(n * 0.9 * 0.05)` edges
immediately preceding the test block, and the train partition is the
remaining leading prefix of length `n - num_val - num_test`. At `n = 1`
the Python `num_train` is `-1` and negative slicing empties both train and
validation instead. -/
theorem c2_positional_split (ds : String) (nu ni : ℕ) (es : List Edge)
    (hn : es.length ≠ 1) :
    (create_trainvaltest_split ds nu ni es false).test_pairs_idx
        = (es.map pairOf).drop (es.length - split_num_test es.length) ∧
    (create_trainvaltest_split ds nu ni es false).test_pairs_idx.length
        = split_num_test es.length ∧
    (create_trainvaltest_split ds nu ni es false).val_pairs_idx
        = ((es.map pairOf).take (es.length - split_num_test es.length)).drop
            (es.length - num_val_branching ds es.length - split_num_test es.length) ∧
    (create_trainvaltest_split ds nu ni es false).val_pairs_idx.length
        = num_val_branching ds es.length ∧
    (create_trainvaltest_split ds nu ni es false).train_pairs_idx
        = (es.map pairOf).take
            (es.length - num_val_branching ds es.length - split_num_test es.length) ∧
    (create_trainvaltest_split ds nu ni es false).train_pairs_idx.length
        = es.length - num_val_branching ds es.length - split_num_test es.length := by
  have hle := create_sizes_le ds es.length hn
  have hPlen : (es.map pairOf).length = es.length := List.length_map _ _
  have hA : ((es.length - num_val_branching ds es.length - split_num_test es.length : ℕ) : ℤ)
      = create_num_train ds es.length := by
    unfold create_num_train
    omega
  have hAv : ((es.length - split_num_test es.length : ℕ) : ℤ)
      = create_num_train ds es.length + num_val_branching ds es.length := by
    unfold create_num_train
    omega
  have htest : (create_trainvaltest_split ds nu ni es false).test_pairs_idx
      = (es.map pairOf).drop (es.length - split_num_test es.length) := by
    have h0 : (create_trainvaltest_split ds nu ni es false).test_pairs_idx
        = pySlice (es.map pairOf)
            (create_num_train ds es.length + num_val_branching ds es.length)
            (es.length : ℤ) := rfl
    rw [h0, pySlice_of_nonneg (es.map pairOf) _ _
      (es.length - split_num_test es.length) es.length hAv rfl
      (by rw [hPlen]; omega) hPlen.ge,
      ← hPlen, List.take_length]
  have hval : (create_trainvaltest_split ds nu ni es false).val_pairs_idx
      = ((es.map pairOf).take (es.length - split_num_test es.length)).drop
          (es.length - num_val_branching ds es.length - split_num_test es.length) := by
    have h0 : (create_trainvaltest_split ds nu ni es false).val_pairs_idx
        = pySlice (es.map pairOf) (create_num_train ds es.length)
            (create_num_train ds es.length + num_val_branching ds es.length) := rfl
    rw [h0, pySlice_of_nonneg (es.map pairOf) _ _
      (es.length - num_val_branching ds es.length - split_num_test es.length)
      (es.length - split_num_test es.length) hA hAv
      (by rw [hPlen]; omega) (by rw [hPlen]; omega)]
  have htrain : (create_trainvaltest_split ds nu ni es false).train_pairs_idx
      = (es.map pairOf).take
          (es.length - num_val_branching ds es.length - split_num_test es.length) := by
    have h0 : (create_trainvaltest_split ds nu ni es false).train_pairs_idx
        = pySlice (es.map pairOf) 0 (create_num_train ds es.length) := rfl
    rw [h0, pySlice_of_nonneg (es.map pairOf) _ _ 0
      (es.length - num_val_branching ds es.length - split_num_test es.length)
      (by omega) hA (Nat.zero_le _) (by rw [hPlen]; omega), List.drop_zero]
  refine ⟨htest, ?_, hval, ?_, htrain, ?_⟩
  · rw [htest, List.length_drop, hPlen]
    omega
  · rw [hval, List.length_drop, List.length_take, hPlen]
    omega
  · rw [htrain, List.length_take, hPlen]
    omega

/-- C2 counterexample: with a single observed edge, `num_val` is 1 by the
claimed formula but the returned validation partition is empty, because
`num_train` is the Python integer `-1` and negative slicing empties both
train and validation while test receives the whole list. -/
theorem c2_positional_split_counterexample :
    (create_trainvaltest_split "ml_100k" 1 1 [((0 : ℕ), (0 : ℕ), (1 : ℚ))] false).val_pairs_idx
        = [] ∧
    num_val_branching "ml_100k" 1 = 1 ∧
    (create_trainvaltest_split "ml_100k" 1 1 [((0 : ℕ), (0 : ℕ), (1 : ℚ))] false).test_pairs_idx
        = [(0, 0)] := by
  refine ⟨by decide, by decide, by decide⟩

/-- C2 witness: the amended positional carve at a concrete 3-edge input. -/
theorem c2_positional_split_witness :
    ([((0 : ℕ), (0 : ℕ), (1 : ℚ)), (0, 1, 2), (1, 0, 3)] : List Edge).length ≠ 1 ∧
    (create_trainvaltest_split "x" 2 2
        [((0 : ℕ), (0 : ℕ), (1 : ℚ)), (0, 1, 2), (1, 0, 3)] false).test_pairs_idx
      = (([((0 : ℕ), (0 : ℕ), (1 : ℚ)), (0, 1, 2), (1, 0, 3)] : List Edge).map pairOf).drop
          (([((0 : ℕ), (0 : ℕ), (1 : ℚ)), (0, 1, 2), (1, 0, 3)] : List Edge).length
            - split_num_test ([((0 : ℕ), (0 : ℕ), (1 : ℚ)), (0, 1, 2), (1, 0, 3)] : List Edge).length) :=
  ⟨by decide, (c2_positional_split "x" 2 2
    [((0 : ℕ), (0 : ℕ), (1 : ℚ)), (0, 1, 2), (1, 0, 3)] (by decide)).1⟩

end ClaimsSplit

section ClaimsAdjacency

/-- C5: the returned training adjacency matrix is built only from the
(possibly validation-merged) train partition: with distinct observed
pairs and in-range item indices, every train-partition edge's cell holds
its class index plus one (the class index being the rating's position in
the sorted distinct rating values, as computed by `rating_dict`), and
every other cell holds 0. -/
theorem c5_adjacency_values (ds : String) (nu ni : ℕ) (es : List Edge) (t : Bool)
    (hb : ∀ e ∈ es, eV e < ni) (hnd : (es.map pairOf).Nodup) :
    (∀ e ∈ es, pairOf e ∈ (create_trainvaltest_split ds nu ni es t).train_pairs_idx →
      (create_trainvaltest_split ds nu ni es t).rating_mx_train (flatIdx ni e)
        = (((rating_dict (es.map eR) (eR e) : ℤ) + 1 : ℤ) : ℚ)) ∧
    (∀ k : ℕ, k ∉ (create_trainvaltest_split ds nu ni es t).train_pairs_idx.map (flatPair ni) →
      (create_trainvaltest_split ds nu ni es t).rating_mx_train k = 0) := by
  have hF : (es.map (flatIdx ni)).Nodup := flat_nodup ni es hb hnd
  have hTI : (create_trainvaltest_split ds nu ni es t).train_pairs_idx.map (flatPair ni)
      = (if t then pySlice (es.map (flatIdx ni)) 0 (create_num_train ds es.length)
            ++ pySlice (es.map (flatIdx ni)) (create_num_train ds es.length)
                (create_num_train ds es.length + num_val_branching ds es.length)
          else pySlice (es.map (flatIdx ni)) 0 (create_num_train ds es.length)) := by
    rw [create_train_pairs_eq]
    cases t <;> simp [pySlice_pairs_to_flat]
  constructor
  · intro e he hmem
    have hk : flatIdx ni e
        ∈ (create_trainvaltest_split ds nu ni es t).train_pairs_idx.map (flatPair ni) :=
      List.mem_map.mpr ⟨pairOf e, hmem, rfl⟩
    rw [hTI] at hk
    rw [create_adj_eq, build_adj_mem _ _ _ hk, write_labels_nodup ni _ es hF e he]
  · intro k hk
    rw [hTI] at hk
    rw [create_adj_eq, build_adj_not_mem _ _ _ hk]

/-- C5 witness: concrete adjacency zero cells at a 4-edge input. -/
theorem c5_adjacency_values_witness :
    (∀ e ∈ ([((0 : ℕ), (0 : ℕ), (1 : ℚ)), (0, 1, 2), (1, 0, 3), (1, 1, 4)] : List Edge),
      eV e < 2) ∧
    (([((0 : ℕ), (0 : ℕ), (1 : ℚ)), (0, 1, 2), (1, 0, 3), (1, 1, 4)] : List Edge).map
      pairOf).Nodup ∧
    (∀ k : ℕ, k ∉ (create_trainvaltest_split "x" 2 2
        [((0 : ℕ), (0 : ℕ), (1 : ℚ)), (0, 1, 2), (1, 0, 3), (1, 1, 4)]
        false).train_pairs_idx.map (flatPair 2) →
      (create_trainvaltest_split "x" 2 2
        [((0 : ℕ), (0 : ℕ), (1 : ℚ)), (0, 1, 2), (1, 0, 3), (1, 1, 4)]
        false).rating_mx_train k = 0) :=
  ⟨by decide, by decide,
    (c5_adjacency_values "x" 2 2
      [((0 : ℕ), (0 : ℕ), (1 : ℚ)), (0, 1, 2), (1, 0, 3), (1, 1, 4)] false
      (by decide) (by decide)).2⟩

/-- C3: the official split concatenates train-file rows then test-file
rows, computes `num_val = ceil(0.2 * train_file_size)` and
`num_train = train_file_size - num_val`, shuffles only the
training-file-derived subset (the validation partition is the first
`num_val` shuffled train-file edges and train the remaining ones, a
permutation of the train-file rows only), and never reshuffles the test
subset: the returned test partition equals the test-file rows in their
original relative order. -/
theorem c3_official_split_structure (nu ni : ℕ) (tr te : List Edge) (p : List ℕ)
    (hp : p.Perm (List.range tr.length))
    (hchk : ∀ e ∈ tr ++ te, official_labels ni tr te (flatIdx ni e)
        = (rating_dict ((tr ++ te).map eR) (eR e) : ℤ)) :
    ∃ out, load_official_trainvaltest_split nu ni tr te p false = some out ∧
      out.test_pairs_idx = te.map pairOf ∧
      out.test_labels = (te.map (flatIdx ni)).map (official_labels ni tr te) ∧
      out.val_pairs_idx = (official_shuffled_pairs tr p).take (official_num_val tr.length) ∧
      out.train_pairs_idx = (official_shuffled_pairs tr p).drop (official_num_val tr.length) ∧
      out.val_pairs_idx.length = official_num_val tr.length ∧
      out.train_pairs_idx.length = tr.length - official_num_val tr.length ∧
      (official_shuffled_pairs tr p).Perm (tr.map pairOf) := by
  have hplp : p.Perm (List.range (tr.map pairOf).length) := by
    rw [List.length_map]
    exact hp
  have hperm : (official_shuffled_pairs tr p).Perm (tr.map pairOf) :=
    applyPerm_perm _ _ hplp
  have hlen : (official_shuffled_pairs tr p).length = tr.length := by
    rw [hperm.length_eq, List.length_map]
  refine ⟨_, official_split_eq nu ni tr te p false hp hchk, rfl, rfl, rfl, rfl, ?_, ?_, hperm⟩
  · show ((official_shuffled_pairs tr p).take (official_num_val tr.length)).length = _
    rw [List.length_take, hlen, min_eq_left (official_num_val_le _)]
  · show ((official_shuffled_pairs tr p).drop (official_num_val tr.length)).length = _
    rw [List.length_drop, hlen]

/-- C3 witness: the official split structure at a concrete input with a
nontrivial shuffle. -/
theorem c3_official_split_structure_witness :
    ([2, 0, 1] : List ℕ).Perm (List.range 3) ∧
    (∃ out, load_official_trainvaltest_split 2 2
        [((0 : ℕ), (0 : ℕ), (1 : ℚ)), (0, 1, 2), (1, 0, 3)] [((1 : ℕ), (1 : ℕ), (4 : ℚ))]
        [2, 0, 1] false = some out ∧
      out.test_pairs_idx = [((1 : ℕ), (1 : ℕ), (4 : ℚ))].map pairOf) :=
  ⟨by decide,
    match c3_official_split_structure 2 2
      [((0 : ℕ), (0 : ℕ), (1 : ℚ)), (0, 1, 2), (1, 0, 3)] [((1 : ℕ), (1 : ℕ), (4 : ℚ))]
      [2, 0, 1] (by decide) (by decide) with
    | ⟨out, h1, h2, _⟩ => ⟨out, h1, h2⟩⟩

end ClaimsAdjacency

section ClaimsChecks

/-- C7 counterexample: `create_trainvaltest_split` performs no label-grid
cross-check. On two edges sharing the cell (0,0) with ratings 1 and 2, the
label grid holds class 1 (the last write) while `rating_dict` maps the
first edge's rating to class 0; the routine neither aborts nor detects
this, returning `val_labels = [1]` — a silently mismatched label. -/
theorem c7_label_check_counterexample :
    (¬ ∀ e ∈ ([((0 : ℕ), (0 : ℕ), (1 : ℚ)), (0, 0, 2)] : List Edge),
        write_labels 1 (rating_dict (([((0 : ℕ), (0 : ℕ), (1 : ℚ)), (0, 0, 2)] :
            List Edge).map eR)) [((0 : ℕ), (0 : ℕ), (1 : ℚ)), (0, 0, 2)] (flatIdx 1 e)
          = (rating_dict (([((0 : ℕ), (0 : ℕ), (1 : ℚ)), (0, 0, 2)] : List Edge).map eR)
              (eR e) : ℤ)) ∧
    (create_trainvaltest_split "x" 1 1 [((0 : ℕ), (0 : ℕ), (1 : ℚ)), (0, 0, 2)]
        false).val_labels = [1] ∧
    rating_dict (([((0 : ℕ), (0 : ℕ), (1 : ℚ)), (0, 0, 2)] : List Edge).map eR) 1 = 0 :=
  ⟨by decide, by decide, by decide⟩

/-- C7 (amended): the official loader (and the identically structured
Monti/books loaders) cross-checks every label-grid lookup against the
rating-to-class mapping and aborts — returns no result — on any mismatch,
while `create_trainvaltest_split` performs no such check; whenever the
observed pairs are distinct with in-range item indices, the checked
equality `labels[u * num_items + v] = rating_dict[ratings[i]]` holds for
every observed edge. -/
theorem c7_label_check (nu ni : ℕ) (tr te : List Edge) (p : List ℕ) (t : Bool) :
    ((∃ e ∈ tr ++ te, official_labels ni tr te (flatIdx ni e)
        ≠ (rating_dict ((tr ++ te).map eR) (eR e) : ℤ)) →
      load_official_trainvaltest_split nu ni tr te p t = none) ∧
    (∀ es : List Edge, (∀ e ∈ es, eV e < ni) → (es.map pairOf).Nodup →
      ∀ e ∈ es, write_labels ni (rating_dict (es.map eR)) es (flatIdx ni e)
        = (rating_dict (es.map eR) (eR e) : ℤ)) := by
  constructor
  · intro h
    obtain ⟨e, he, hne⟩ := h
    unfold official_labels at hne
    unfold load_official_trainvaltest_split
    rw [if_neg]
    intro hall
    exact hne (hall e he)
  · intro es hb hnd e he
    exact write_labels_nodup ni _ es (flat_nodup ni es hb hnd) e he

/-- C7 witness: a concrete mismatch makes the official loader return no
result. -/
theorem c7_label_check_witness :
    (∃ e ∈ ([((0 : ℕ), (0 : ℕ), (1 : ℚ)), (0, 0, 2)] : List Edge) ++ [],
      official_labels 1 [((0 : ℕ), (0 : ℕ), (1 : ℚ)), (0, 0, 2)] [] (flatIdx 1 e)
        ≠ (rating_dict ((([((0 : ℕ), (0 : ℕ), (1 : ℚ)), (0, 0, 2)] : List Edge)
            ++ []).map eR) (eR e) : ℤ)) ∧
    load_official_trainvaltest_split 1 1 [((0 : ℕ), (0 : ℕ), (1 : ℚ)), (0, 0, 2)] []
      [0, 1] false = none :=
  ⟨by decide,
    (c7_label_check 1 1 [((0 : ℕ), (0 : ℕ), (1 : ℚ)), (0, 0, 2)] [] [0, 1] false).1
      (by decide)⟩

/-- C4: with `testing = True` each split routine merges the validation
edges back into training, for label supervision (the returned train label
array and the parallel `u`/`v` index arrays are the concatenations of the
`testing = False` train arrays with the validation arrays, so their length
is the original train length plus the validation length), and for the
training adjacency matrix (every validation edge's cell is nonzero), while
the validation and test outputs are unchanged from `testing = False`. -/
theorem c4_testing_merge :
    (∀ (ds : String) (nu ni : ℕ) (es : List Edge),
      (create_trainvaltest_split ds nu ni es true).train_labels
          = (create_trainvaltest_split ds nu ni es false).train_labels
            ++ (create_trainvaltest_split ds nu ni es false).val_labels ∧
      (create_trainvaltest_split ds nu ni es true).u_train_idx
          = (create_trainvaltest_split ds nu ni es false).u_train_idx
            ++ (create_trainvaltest_split ds nu ni es false).u_val_idx ∧
      (create_trainvaltest_split ds nu ni es true).v_train_idx
          = (create_trainvaltest_split ds nu ni es false).v_train_idx
            ++ (create_trainvaltest_split ds nu ni es false).v_val_idx ∧
      (create_trainvaltest_split ds nu ni es true).train_labels.length
          = (create_trainvaltest_split ds nu ni es false).train_labels.length
            + (create_trainvaltest_split ds nu ni es false).val_labels.length ∧
      (create_trainvaltest_split ds nu ni es true).val_labels
          = (create_trainvaltest_split ds nu ni es false).val_labels ∧
      (create_trainvaltest_split ds nu ni es true).val_pairs_idx
          = (create_trainvaltest_split ds nu ni es false).val_pairs_idx ∧
      (create_trainvaltest_split ds nu ni es true).test_labels
          = (create_trainvaltest_split ds nu ni es false).test_labels ∧
      (create_trainvaltest_split ds nu ni es true).test_pairs_idx
          = (create_trainvaltest_split ds nu ni es false).test_pairs_idx ∧
      (∀ q ∈ (create_trainvaltest_split ds nu ni es false).val_pairs_idx,
        (create_trainvaltest_split ds nu ni es true).rating_mx_train (flatPair ni q) ≠ 0)) ∧
    (∀ (nu ni : ℕ) (tr te : List Edge) (p : List ℕ),
      p.Perm (List.range tr.length) →
      (∀ e ∈ tr ++ te, official_labels ni tr te (flatIdx ni e)
          = (rating_dict ((tr ++ te).map eR) (eR e) : ℤ)) →
      ∃ o0 o1, load_official_trainvaltest_split nu ni tr te p false = some o0 ∧
        load_official_trainvaltest_split nu ni tr te p true = some o1 ∧
        o1.train_labels = o0.train_labels ++ o0.val_labels ∧
        o1.u_train_idx = o0.u_train_idx ++ o0.u_val_idx ∧
        o1.v_train_idx = o0.v_train_idx ++ o0.v_val_idx ∧
        o1.train_labels.length = o0.train_labels.length + o0.val_labels.length ∧
        o1.val_labels = o0.val_labels ∧
        o1.val_pairs_idx = o0.val_pairs_idx ∧
        o1.test_labels = o0.test_labels ∧
        o1.test_pairs_idx = o0.test_pairs_idx ∧
        (∀ q ∈ o0.val_pairs_idx, o1.rating_mx_train (flatPair ni q) ≠ 0)) := by
  constructor
  · intro ds nu ni es
    refine ⟨rfl, List.map_append _ _ _, List.map_append _ _ _, List.length_append _ _,
      rfl, rfl, rfl, rfl, ?_⟩
    intro q hq
    have hq' : q ∈ pySlice (es.map pairOf) (create_num_train ds es.length)
        (create_num_train ds es.length + num_val_branching ds es.length) := hq
    have hkmem : flatPair ni q ∈ pySlice (es.map (flatIdx ni)) (create_num_train ds es.length)
        (create_num_train ds es.length + num_val_branching ds es.length) := by
      rw [← pySlice_pairs_to_flat]
      exact List.mem_map.mpr ⟨q, hq', rfl⟩
    have hk2 : flatPair ni q
        ∈ pySlice (es.map (flatIdx ni)) 0 (create_num_train ds es.length)
          ++ pySlice (es.map (flatIdx ni)) (create_num_train ds es.length)
              (create_num_train ds es.length + num_val_branching ds es.length) :=
      List.mem_append.mpr (Or.inr hkmem)
    have hadj : (create_trainvaltest_split ds nu ni es true).rating_mx_train (flatPair ni q)
        = ((write_labels ni (rating_dict (es.map eR)) es (flatPair ni q) + 1 : ℤ) : ℚ) :=
      build_adj_mem _ _ _ hk2
    rw [hadj]
    have hmemF : flatPair ni q ∈ es.map (flatIdx ni) := by
      have hq2 : q ∈ es.map pairOf := mem_of_mem_pySlice hq'
      obtain ⟨e, he, hpe⟩ := List.mem_map.mp hq2
      subst hpe
      exact List.mem_map.mpr ⟨e, he, rfl⟩
    have hnn := write_labels_nonneg ni (rating_dict (es.map eR)) es _ hmemF
    have : write_labels ni (rating_dict (es.map eR)) es (flatPair ni q) + 1 ≠ 0 := by omega
    exact_mod_cast this
  · intro nu ni tr te p hp hchk
    refine ⟨_, _, official_split_eq nu ni tr te p false hp hchk,
      official_split_eq nu ni tr te p true hp hchk,
      rfl, List.map_append _ _ _, List.map_append _ _ _, List.length_append _ _,
      rfl, rfl, rfl, rfl, ?_⟩
    intro q hq
    have hq' : q ∈ (official_shuffled_pairs tr p).take (official_num_val tr.length) := hq
    have hkmem : flatPair ni q
        ∈ (official_shuffled_idx ni tr p).take (official_num_val tr.length) := by
      rw [← official_pairs_to_flat, ← List.map_take]
      exact List.mem_map.mpr ⟨q, hq', rfl⟩
    have hk2 : flatPair ni q
        ∈ (official_shuffled_idx ni tr p).drop (official_num_val tr.length)
          ++ (official_shuffled_idx ni tr p).take (official_num_val tr.length) :=
      List.mem_append.mpr (Or.inr hkmem)
    have hshow : (build_adj (official_labels ni tr te)
          ((official_shuffled_idx ni tr p).drop (official_num_val tr.length)
            ++ (official_shuffled_idx ni tr p).take (official_num_val tr.length)))
        (flatPair ni q)
        = ((official_labels ni tr te (flatPair ni q) + 1 : ℤ) : ℚ) :=
      build_adj_mem _ _ _ hk2
    show (build_adj (official_labels ni tr te)
        ((official_shuffled_idx ni tr p).drop (official_num_val tr.length)
          ++ (official_shuffled_idx ni tr p).take (official_num_val tr.length)))
        (flatPair ni q) ≠ 0
    rw [hshow]
    have hqtr : q ∈ tr.map pairOf :=
      mem_of_mem_applyPerm (List.mem_of_mem_take hq')
    obtain ⟨e, he, hpe⟩ := List.mem_map.mp hqtr
    subst hpe
    have hmemF : flatPair ni (pairOf e) ∈ (tr ++ te).map (flatIdx ni) :=
      List.mem_map.mpr ⟨e, List.mem_append.mpr (Or.inl he), rfl⟩
    have hnn : 0 ≤ official_labels ni tr te (flatPair ni (pairOf e)) :=
      write_labels_nonneg ni _ (tr ++ te) _ hmemF
    have : official_labels ni tr te (flatPair ni (pairOf e)) + 1 ≠ 0 := by omega
    exact_mod_cast this

/-- C4 witness: the merge relations at a concrete official-split input. -/
theorem c4_testing_merge_witness :
    ([2, 0, 1] : List ℕ).Perm (List.range 3) ∧
    (∃ o0 o1, load_official_trainvaltest_split 2 2
        [((0 : ℕ), (0 : ℕ), (1 : ℚ)), (0, 1, 2), (1, 0, 3)] [((1 : ℕ), (1 : ℕ), (4 : ℚ))]
        [2, 0, 1] false = some o0 ∧
      load_official_trainvaltest_split 2 2
        [((0 : ℕ), (0 : ℕ), (1 : ℚ)), (0, 1, 2), (1, 0, 3)] [((1 : ℕ), (1 : ℕ), (4 : ℚ))]
        [2, 0, 1] true = some o1 ∧
      o1.train_labels = o0.train_labels ++ o0.val_labels) :=
  ⟨by decide,
    match c4_testing_merge.2 2 2
      [((0 : ℕ), (0 : ℕ), (1 : ℚ)), (0, 1, 2), (1, 0, 3)] [((1 : ℕ), (1 : ℕ), (4 : ℚ))]
      [2, 0, 1] (by decide) (by decide) with
    | ⟨o0, o1, h1, h2, h3, _⟩ => ⟨o0, o1, h1, h2, h3⟩⟩

end ClaimsChecks

section ClaimsPartition

/-- Establish `partitionClaim` from flat-index identifications of the
three partitions and a permutation onto duplicate-free observed indices. -/
theorem partitionClaim_of (ni : ℕ) (F : List ℕ) (o : SplitOut) (T V S : List ℕ)
    (hT : o.train_pairs_idx.map (flatPair ni) = T)
    (hV : o.val_pairs_idx.map (flatPair ni) = V)
    (hS : o.test_pairs_idx.map (flatPair ni) = S)
    (hperm : (T ++ (V ++ S)).Perm F) (hnd : F.Nodup) :
    partitionClaim ni F o := by
  unfold partitionClaim
  rw [hT, hV, hS]
  exact partition_props hperm hnd

/-- C1: with `testing = False` on observed edges whose `(user, item)` pairs
are distinct (and item indices in range), both split routines return
pairwise disjoint, exhaustive partitions: the partition sizes sum to the
number of observed edges, the union of the partitions' edge flat-indices
equals the full set of observed flat indices, and each observed edge
appears in exactly one partition. The first conjunct covers
`create_trainvaltest_split`; the second covers
`load_official_trainvaltest_split`, whose splitting core is shared line
for line by `load_data_monti` and `load_data_books`. -/
theorem c1_partition_exhaustive :
    (∀ (ds : String) (nu ni : ℕ) (es : List Edge),
      (∀ e ∈ es, eV e < ni) → (es.map pairOf).Nodup →
      partitionClaim ni (es.map (flatIdx ni)) (create_trainvaltest_split ds nu ni es false)) ∧
    (∀ (nu ni : ℕ) (tr te : List Edge) (p : List ℕ),
      p.Perm (List.range tr.length) →
      (∀ e ∈ tr ++ te, eV e < ni) → ((tr ++ te).map pairOf).Nodup →
      ∃ out, load_official_trainvaltest_split nu ni tr te p false = some out ∧
        partitionClaim ni ((tr ++ te).map (flatIdx ni)) out) := by
  constructor
  · intro ds nu ni es hb hnd
    have hF : (es.map (flatIdx ni)).Nodup := flat_nodup ni es hb hnd
    have hmono : clampIdx (es.map (flatIdx ni)).length (create_num_train ds es.length)
        ≤ clampIdx (es.map (flatIdx ni)).length
            (create_num_train ds es.length + num_val_branching ds es.length) := by
      rw [List.length_map]
      exact create_clamp_mono ds es.length
    have hglue := pySlice_glue (es.map (flatIdx ni)) (create_num_train ds es.length)
      (create_num_train ds es.length + num_val_branching ds es.length) hmono
    rw [List.length_map] at hglue
    refine partitionClaim_of ni _ _
      (pySlice (es.map (flatIdx ni)) 0 (create_num_train ds es.length))
      (pySlice (es.map (flatIdx ni)) (create_num_train ds es.length)
        (create_num_train ds es.length + num_val_branching ds es.length))
      (pySlice (es.map (flatIdx ni))
        (create_num_train ds es.length + num_val_branching ds es.length) (es.length : ℤ))
      ?_ ?_ ?_ ?_ hF
    · rw [show (create_trainvaltest_split ds nu ni es false).train_pairs_idx
          = pySlice (es.map pairOf) 0 (create_num_train ds es.length) from rfl,
        pySlice_pairs_to_flat]
    · rw [show (create_trainvaltest_split ds nu ni es false).val_pairs_idx
          = pySlice (es.map pairOf) (create_num_train ds es.length)
              (create_num_train ds es.length + num_val_branching ds es.length) from rfl,
        pySlice_pairs_to_flat]
    · rw [show (create_trainvaltest_split ds nu ni es false).test_pairs_idx
          = pySlice (es.map pairOf)
              (create_num_train ds es.length + num_val_branching ds es.length)
              (es.length : ℤ) from rfl,
        pySlice_pairs_to_flat]
    · rw [hglue]
  · intro nu ni tr te p hp hb hnd
    have hF : ((tr ++ te).map (flatIdx ni)).Nodup := flat_nodup ni (tr ++ te) hb hnd
    have hchk : ∀ e ∈ tr ++ te, official_labels ni tr te (flatIdx ni e)
        = (rating_dict ((tr ++ te).map eR) (eR e) : ℤ) := by
      intro e he
      unfold official_labels
      exact write_labels_nodup ni _ (tr ++ te) hF e he
    refine ⟨_, official_split_eq nu ni tr te p false hp hchk, ?_⟩
    refine partitionClaim_of ni _ _
      ((official_shuffled_idx ni tr p).drop (official_num_val tr.length))
      ((official_shuffled_idx ni tr p).take (official_num_val tr.length))
      (te.map (flatIdx ni)) ?_ ?_ ?_ ?_ hF
    · show ((official_shuffled_pairs tr p).drop (official_num_val tr.length)).map (flatPair ni)
          = (official_shuffled_idx ni tr p).drop (official_num_val tr.length)
      rw [List.map_drop, official_pairs_to_flat]
    · show ((official_shuffled_pairs tr p).take (official_num_val tr.length)).map (flatPair ni)
          = (official_shuffled_idx ni tr p).take (official_num_val tr.length)
      rw [List.map_take, official_pairs_to_flat]
    · show (te.map pairOf).map (flatPair ni) = te.map (flatIdx ni)
      rw [List.map_map]
      rfl
    · refine perm_swap_first_two.trans ?_
      rw [← List.append_assoc, List.take_append_drop,
        show (tr ++ te).map (flatIdx ni) = tr.map (flatIdx ni) ++ te.map (flatIdx ni)
          from List.map_append _ _ _]
      refine List.Perm.append_right _ ?_
      exact applyPerm_perm _ _ (by rw [List.length_map]; exact hp)

/-- C1 witness: both partition invariants at concrete inputs. -/
theorem c1_partition_exhaustive_witness :
    (∀ e ∈ ([((0 : ℕ), (0 : ℕ), (1 : ℚ)), (0, 1, 2), (1, 0, 3), (1, 1, 4)] : List Edge),
      eV e < 2) ∧
    (([((0 : ℕ), (0 : ℕ), (1 : ℚ)), (0, 1, 2), (1, 0, 3), (1, 1, 4)] : List Edge).map
      pairOf).Nodup ∧
    partitionClaim 2
      (([((0 : ℕ), (0 : ℕ), (1 : ℚ)), (0, 1, 2), (1, 0, 3), (1, 1, 4)] : List Edge).map
        (flatIdx 2))
      (create_trainvaltest_split "x" 2 2
        [((0 : ℕ), (0 : ℕ), (1 : ℚ)), (0, 1, 2), (1, 0, 3), (1, 1, 4)] false) ∧
    (∃ out, load_official_trainvaltest_split 2 2
        [((0 : ℕ), (0 : ℕ), (1 : ℚ)), (0, 1, 2), (1, 0, 3)] [((1 : ℕ), (1 : ℕ), (4 : ℚ))]
        [2, 0, 1] false = some out ∧
      partitionClaim 2
        ((([((0 : ℕ), (0 : ℕ), (1 : ℚ)), (0, 1, 2), (1, 0, 3)] : List Edge)
          ++ [((1 : ℕ), (1 : ℕ), (4 : ℚ))]).map (flatIdx 2)) out) :=
  ⟨by decide, by decide,
    c1_partition_exhaustive.1 "x" 2 2
      [((0 : ℕ), (0 : ℕ), (1 : ℚ)), (0, 1, 2), (1, 0, 3), (1, 1, 4)]
      (by decide) (by decide),
    c1_partition_exhaustive.2 2 2
      [((0 : ℕ), (0 : ℕ), (1 : ℚ)), (0, 1, 2), (1, 0, 3)] [((1 : ℕ), (1 : ℕ), (4 : ℚ))]
      [2, 0, 1] (by decide) (by decide) (by decide)⟩

end ClaimsPartition
